import Mathlib

/-!
Verification of the batched text submission component of the Airbnb
analysis repository: the function `batched_translate` (src/airbnb.py),
which splits a list of strings into batches under a per-batch character
budget (`max_chars`) and item-count limit (`batch_size`), dispatches each
batch to a remote translation call, and concatenates the per-batch
results in order.

The remote call `client.translate` is modelled as a parameter
`tr : List String → Except E (List String)`; the list it returns on
success stands for the `translatedText` fields extracted by the code, and
`Except.error` stands for the call raising.  The embedding `btAux`
mirrors the Python loop exactly, additionally recording the list of
batches passed to the remote call; `batchesAux` is the same loop with
translation stripped away (the batching decisions never depend on the
remote call's output), and a bridge lemma connects the two.
-/

namespace Airbnb

/-- `sum(len(x) for x in batch)`: total character count of a batch. -/
def char_sum (batch : List String) : Nat :=
  (batch.map String.length).sum

/-- The batching loop of `batched_translate` with the remote call stripped
away: from a pending batch `current_batch` with running character count
`char_count`, process the remaining input and return the list of batches
handed to the remote call, in dispatch order.  Mirrors src/airbnb.py
lines 164-180: a batch is flushed before adding `text` when
`char_count + len(text) > max_chars` or `len(current_batch) >= batch_size`
(note: the flushed batch may be empty), and a leftover batch is flushed at
the end only when non-empty. -/
def batchesAux (max_chars batch_size : Nat) (current_batch : List String)
    (char_count : Nat) : List String → List (List String)
  | [] => if current_batch.isEmpty then [] else [current_batch]
  | text :: rest =>
    if max_chars < char_count + text.length ∨ batch_size ≤ current_batch.length then
      current_batch :: batchesAux max_chars batch_size [text] text.length rest
    else
      batchesAux max_chars batch_size (current_batch ++ [text])
        (char_count + text.length) rest

/-- The batches that `batched_translate` dispatches for input `text_list`. -/
def batches (max_chars batch_size : Nat) (text_list : List String) :
    List (List String) :=
  batchesAux max_chars batch_size [] 0 text_list

/-- Direct transcription of the loop of `batched_translate`
(src/airbnb.py lines 158-182), instrumented to also return the batches
passed to the remote call `tr`, in call order.  State: the pending batch
`current_batch`, its running character count `char_count`, and the merged
results so far `results`.  When a remote call fails the loop aborts
immediately with that error, exactly as a raised exception would
propagate out of the Python function. -/
def btAux {E : Type} (tr : List String → Except E (List String))
    (max_chars batch_size : Nat) (current_batch : List String)
    (char_count : Nat) (results : List String) :
    List String → List (List String) × Except E (List String)
  | [] =>
    if current_batch.isEmpty then ([], Except.ok results)
    else
      match tr current_batch with
      | Except.error e => ([current_batch], Except.error e)
      | Except.ok t => ([current_batch], Except.ok (results ++ t))
  | text :: rest =>
    if max_chars < char_count + text.length ∨ batch_size ≤ current_batch.length then
      match tr current_batch with
      | Except.error e => ([current_batch], Except.error e)
      | Except.ok t =>
        let p := btAux tr max_chars batch_size [text] text.length (results ++ t) rest
        (current_batch :: p.1, p.2)
    else
      btAux tr max_chars batch_size (current_batch ++ [text])
        (char_count + text.length) results rest

/-- `batched_translate(text_list, ..., max_chars, batch_size)` with remote
call `tr`: the final result (merged translations, or the propagated
remote error). -/
def batched_translate {E : Type} (tr : List String → Except E (List String))
    (max_chars batch_size : Nat) (text_list : List String) :
    Except E (List String) :=
  (btAux tr max_chars batch_size [] 0 [] text_list).2

/-- The batches actually passed to the remote call during a run of
`batched_translate` (including a final failing call, when one occurs). -/
def dispatched {E : Type} (tr : List String → Except E (List String))
    (max_chars batch_size : Nat) (text_list : List String) :
    List (List String) :=
  (btAux tr max_chars batch_size [] 0 [] text_list).1

/-- Run the remote call over a prepared list of batches, recording the
calls made and short-circuiting on the first failure. -/
def runTrace {E : Type} (tr : List String → Except E (List String)) :
    List (List String) → List (List String) × Except E (List String)
  | [] => ([], Except.ok [])
  | b :: bs =>
    match tr b with
    | Except.error e => ([b], Except.error e)
    | Except.ok r =>
      let p := runTrace tr bs
      (b :: p.1, p.2.map (fun rs => r ++ rs))

/-- Bridge: the instrumented transcription equals batching followed by
`runTrace`, with the accumulated results prepended on success. -/
theorem btAux_eq_runTrace {E : Type} (tr : List String → Except E (List String))
    (max_chars batch_size : Nat) :
    ∀ (ts current_batch : List String) (char_count : Nat) (results : List String),
      btAux tr max_chars batch_size current_batch char_count results ts =
        ((runTrace tr (batchesAux max_chars batch_size current_batch char_count ts)).1,
         (runTrace tr (batchesAux max_chars batch_size current_batch char_count ts)).2.map
           (fun rs => results ++ rs)) := by
  intro ts
  induction ts with
  | nil =>
    intro cur cnt acc
    simp only [btAux, batchesAux]
    by_cases hc : cur.isEmpty
    · simp [hc, runTrace, Except.map]
    · simp only [hc, if_neg, Bool.false_eq_true, not_false_iff, ite_false]
      cases htr : tr cur with
      | error e => simp [runTrace, htr, Except.map]
      | ok r => simp [runTrace, htr, Except.map]
  | cons text rest ih =>
    intro cur cnt acc
    simp only [btAux, batchesAux]
    by_cases hcond : max_chars < cnt + text.length ∨ batch_size ≤ cur.length
    · simp only [hcond, if_pos]
      cases htr : tr cur with
      | error e => simp [runTrace, htr, Except.map]
      | ok r =>
        simp only [runTrace, htr, ih]
        cases h2 : (runTrace tr (batchesAux max_chars batch_size [text] text.length rest)).2 with
        | error e => simp [h2, Except.map]
        | ok rs => simp [h2, Except.map, List.append_assoc]
    · simp only [hcond, if_neg, not_false_iff]
      exact ih _ _ _

/-- With a remote call that always succeeds, `runTrace` calls every batch
and returns the concatenation of the per-batch outputs. -/
theorem runTrace_ok {E : Type} (f : List String → List String) :
    ∀ bl : List (List String),
      runTrace (fun b => (Except.ok (f b) : Except E (List String))) bl =
        (bl, Except.ok (bl.map f).flatten) := by
  intro bl
  induction bl with
  | nil => simp [runTrace]
  | cons b bs ih => simp [runTrace, ih, Except.map]

/-- Concatenating the batches recovers the pending batch followed by the
remaining input: no item is lost, duplicated, or reordered. -/
theorem batchesAux_join (max_chars batch_size : Nat) :
    ∀ (ts current_batch : List String) (char_count : Nat),
      (batchesAux max_chars batch_size current_batch char_count ts).flatten =
        current_batch ++ ts := by
  intro ts
  induction ts with
  | nil =>
    intro cur cnt
    by_cases hc : cur.isEmpty
    · simp [batchesAux, hc, List.isEmpty_iff.mp hc]
    · simp [batchesAux, hc]
  | cons text rest ih =>
    intro cur cnt
    by_cases hcond : max_chars < cnt + text.length ∨ batch_size ≤ cur.length
    · simp [batchesAux, hcond, ih]
    · simp [batchesAux, hcond, ih]

/-- With an always-succeeding remote call, the dispatched batches are
exactly the batches of the pure batching function. -/
theorem dispatched_ok {E : Type} (f : List String → List String)
    (max_chars batch_size : Nat) (text_list : List String) :
    dispatched (fun b => (Except.ok (f b) : Except E (List String)))
        max_chars batch_size text_list =
      batches max_chars batch_size text_list := by
  simp [dispatched, batches, btAux_eq_runTrace, runTrace_ok]

/-- With an always-succeeding remote call, `batched_translate` returns the
concatenation of the per-batch outputs over the pure batches. -/
theorem batched_translate_ok {E : Type} (f : List String → List String)
    (max_chars batch_size : Nat) (text_list : List String) :
    batched_translate (fun b => (Except.ok (f b) : Except E (List String)))
        max_chars batch_size text_list =
      Except.ok ((batches max_chars batch_size text_list).map f).flatten := by
  simp [batched_translate, batches, btAux_eq_runTrace, runTrace_ok, Except.map]

/-- Invariant of the batching loop: provided `batch_size ≥ 1` and the
pending batch is within the item-count limit, has its running character
count in sync, and is either within the character budget or a single
oversized item, every batch it dispatches is within both limits or is a
single oversized item. -/
theorem batchesAux_inv (max_chars batch_size : Nat) (hbs : 1 ≤ batch_size) :
    ∀ (ts current_batch : List String),
      current_batch.length ≤ batch_size →
      (char_sum current_batch ≤ max_chars ∨
        ∃ s, current_batch = [s] ∧ max_chars < s.length) →
      ∀ b ∈ batchesAux max_chars batch_size current_batch (char_sum current_batch) ts,
        (b.length ≤ batch_size ∧ char_sum b ≤ max_chars) ∨
          ∃ s, b = [s] ∧ max_chars < s.length := by
  intro ts
  induction ts with
  | nil =>
    intro cur hlen hok b hb
    simp only [batchesAux] at hb
    by_cases hc : cur.isEmpty
    · simp [hc] at hb
    · simp only [hc, Bool.false_eq_true, if_neg, not_false_iff, List.mem_singleton] at hb
      subst hb
      rcases hok with h | h
      · exact Or.inl ⟨hlen, h⟩
      · exact Or.inr h
  | cons text rest ih =>
    intro cur hlen hok b hb
    simp only [batchesAux] at hb
    by_cases hcond : max_chars < char_sum cur + text.length ∨ batch_size ≤ cur.length
    · simp only [hcond, if_pos, List.mem_cons] at hb
      rcases hb with hb | hb
      · subst hb
        rcases hok with h | h
        · exact Or.inl ⟨hlen, h⟩
        · exact Or.inr h
      · have hsingle : char_sum [text] = text.length := by
          simp [char_sum]
        by_cases hbig : max_chars < text.length
        · have := ih [text] (by simpa using hbs)
            (Or.inr ⟨text, rfl, hbig⟩) b
          rw [hsingle] at this
          exact this hb
        · have := ih [text] (by simpa using hbs)
            (Or.inl (by rw [hsingle]; omega)) b
          rw [hsingle] at this
          exact this hb
    · push_neg at hcond
      rw [if_neg (by push_neg; exact hcond)] at hb
      have happ : char_sum (cur ++ [text]) = char_sum cur + text.length := by
        simp [char_sum]
      have hlen2 : (cur ++ [text]).length ≤ batch_size := by
        simp only [List.length_append, List.length_singleton]
        omega
      have hmem : b ∈ batchesAux max_chars batch_size (cur ++ [text])
          (char_sum (cur ++ [text])) rest := by
        rw [happ]; exact hb
      exact ih (cur ++ [text]) hlen2 (Or.inl (by rw [happ]; exact hcond.1)) b hmem

/-- Every batch dispatched from a non-empty pending batch is non-empty. -/
theorem batchesAux_ne_nil (max_chars batch_size : Nat) :
    ∀ (ts current_batch : List String) (char_count : Nat),
      current_batch ≠ [] →
      ∀ b ∈ batchesAux max_chars batch_size current_batch char_count ts, b ≠ [] := by
  intro ts
  induction ts with
  | nil =>
    intro cur cnt hcur b hb
    simp only [batchesAux] at hb
    rw [if_neg (by simpa [List.isEmpty_iff] using hcur)] at hb
    have hbc : b = cur := List.mem_singleton.mp hb
    rw [hbc]
    exact hcur
  | cons text rest ih =>
    intro cur cnt hcur b hb
    simp only [batchesAux] at hb
    by_cases hcond : max_chars < cnt + text.length ∨ batch_size ≤ cur.length
    · rw [if_pos hcond] at hb
      rcases List.mem_cons.mp hb with hb | hb
      · exact hb ▸ hcur
      · exact ih [text] text.length (by simp) b hb
    · rw [if_neg hcond] at hb
      exact ih (cur ++ [text]) (cnt + text.length) (by simp) b hb

/-- If the remote call succeeds on the first `k` batches and fails on
batch `k`, `runTrace` makes exactly the calls for batches `0..k` and
returns the remote error unchanged. -/
theorem runTrace_fail {E : Type} (tr : List String → Except E (List String)) :
    ∀ (bl : List (List String)) (k : Nat) (hk : k < bl.length) (e : E),
      (∀ j (hj : j < k), ∃ r, tr (bl.get ⟨j, Nat.lt_trans hj hk⟩) = Except.ok r) →
      tr (bl.get ⟨k, hk⟩) = Except.error e →
      runTrace tr bl = (bl.take (k + 1), Except.error e) := by
  intro bl
  induction bl with
  | nil => intro k hk; simp at hk
  | cons b bs ih =>
    intro k hk e hok herr
    cases k with
    | zero =>
      simp only [List.get] at herr
      simp [runTrace, herr]
    | succ k =>
      obtain ⟨r, hr⟩ := hok 0 (Nat.succ_pos k)
      simp only [List.get] at hr
      have hk2 : k < bs.length := Nat.lt_of_succ_lt_succ hk
      have hrec := ih k hk2 e
        (fun j hj => hok (j + 1) (Nat.succ_lt_succ hj))
        herr
      simp [runTrace, hr, hrec, Except.map]

/-- With a remote call that translates each item by `t`, `batched_translate`
returns exactly the item-wise translation of the whole input. -/
theorem batched_translate_map {E : Type} (t : String → String)
    (max_chars batch_size : Nat) (text_list : List String) :
    batched_translate (fun b => (Except.ok (b.map t) : Except E (List String)))
        max_chars batch_size text_list = Except.ok (text_list.map t) := by
  rw [batched_translate_ok (fun b => b.map t)]
  congr 1
  rw [← List.map_flatten]
  congr 1
  simpa [batches] using batchesAux_join max_chars batch_size text_list [] 0

/-- C1: for every list of items and every remote call returning a
same-length, order-preserving list of translations per batch (modelled as
item-wise application of a translation function `t`), `batched_translate`
returns a list of the same length as the input whose element at each
index `i` is the translation of the input element at index `i`. -/
theorem claim_C1 (E : Type) (t : String → String) (max_chars batch_size : Nat)
    (text_list : List String) :
    ∃ out, batched_translate (fun b => (Except.ok (b.map t) : Except E (List String)))
        max_chars batch_size text_list = Except.ok out ∧
      out.length = text_list.length ∧
      ∀ i : Nat, out[i]? = (text_list[i]?).map t := by
  refine ⟨text_list.map t, batched_translate_map t max_chars batch_size text_list,
    by simp, fun i => ?_⟩
  simp [List.getElem?_map]

/-- C2: for `max_chars ≥ 1` and `batch_size ≥ 1`, every dispatched batch
is within both the item-count limit and the character budget, except a
batch consisting of exactly one item whose own length exceeds
`max_chars`. -/
theorem claim_C2 (max_chars batch_size : Nat) (hmc : 1 ≤ max_chars)
    (hbs : 1 ≤ batch_size) (text_list : List String) :
    ∀ b ∈ batches max_chars batch_size text_list,
      (b.length ≤ batch_size ∧ char_sum b ≤ max_chars) ∨
        ∃ s, b = [s] ∧ max_chars < s.length := by
  intro b hb
  have h := batchesAux_inv max_chars batch_size hbs text_list []
    (by simp) (Or.inl (by simp [char_sum])) b
  exact h hb

/-- Witness for C2 at `max_chars = 3`, `batch_size = 10`,
input `["a","bb","ccc"]`, batch `["a","bb"]`. -/
theorem claim_C2_witness :
    ((1 ≤ 3 ∧ 1 ≤ 10) ∧ ["a", "bb"] ∈ batches 3 10 ["a", "bb", "ccc"]) ∧
      ((["a", "bb"].length ≤ 10 ∧ char_sum ["a", "bb"] ≤ 3) ∨
        ∃ s, ["a", "bb"] = [s] ∧ 3 < s.length) :=
  ⟨⟨⟨by decide, by decide⟩, by decide⟩,
    claim_C2 3 10 (by decide) (by decide) ["a", "bb", "ccc"] ["a", "bb"] (by decide)⟩

/-- The oversized item of spec Scenario 4: `"a" * 5000`. -/
def bigItem : String :=
  String.mk (List.replicate 5000 'a')

/-- C3 (evaluation at the failing input): for `items = ["a"*5000]` with
`max_chars = 100`, the code dispatches TWO batches — an empty batch first,
then the oversized item alone — so the remote call is invoked twice, not
once as the claim states.  (The item itself is indeed never split,
rejected, or truncated: it ends up alone in its one-item batch.) -/
theorem claim_C3 :
    batches 100 120 [bigItem] = [[], [bigItem]] ∧
      dispatched (fun b => (Except.ok b : Except Unit (List String)))
        100 120 [bigItem] = [[], [bigItem]] := by
  have hlen : bigItem.length = 5000 := by
    have h1 : bigItem.length = (List.replicate 5000 'a').length := rfl
    rw [h1, List.length_replicate]
  have hb : batches 100 120 [bigItem] = [[], [bigItem]] := by
    simp only [batches, batchesAux, hlen]
    rw [if_pos (Or.inl (by omega))]
    simp
  refine ⟨hb, ?_⟩
  rw [dispatched_ok (fun b => b), hb]

/-- C4 as amended: the code performs no validation of `max_chars` or
`batch_size`; when `max_chars < 1` or `batch_size < 1` it does not fail
with any configuration error but proceeds, and with a succeeding remote
call it returns the full translation normally. -/
theorem claim_C4 (t : String → String) (max_chars batch_size : Nat)
    (h : max_chars < 1 ∨ batch_size < 1) (text_list : List String) :
    batched_translate (fun b => (Except.ok (b.map t) : Except Unit (List String)))
        max_chars batch_size text_list = Except.ok (text_list.map t) :=
  batched_translate_map t max_chars batch_size text_list

/-- Witness for C4 at `max_chars = 0`, input `["a", "bb"]`. -/
theorem claim_C4_witness :
    ((0 : Nat) < 1 ∨ (120 : Nat) < 1) ∧
      batched_translate (fun b => (Except.ok (b.map (fun s => s)) : Except Unit (List String)))
        0 120 ["a", "bb"] = Except.ok (["a", "bb"].map (fun s => s)) :=
  ⟨Or.inl (by decide), claim_C4 (fun s => s) 0 120 (Or.inl (by decide)) ["a", "bb"]⟩

/-- Counterexample to C4 as stated: with `max_chars = 0 < 1` the call does
not fail at all — it returns normally, and remote calls ARE made (two of
them, the first with an empty batch). -/
theorem claim_C4_counterexample :
    (0 : Nat) < 1 ∧
      batched_translate (fun b => (Except.ok b : Except Unit (List String)))
        0 120 ["a"] = Except.ok ["a"] ∧
      dispatched (fun b => (Except.ok b : Except Unit (List String)))
        0 120 ["a"] = [[], ["a"]] :=
  ⟨by decide, rfl, rfl⟩

/-- C5 as amended: if the remote call succeeds on every batch before
dispatch index `k` and fails on batch `k` with error `e`, then
`batched_translate` fails with exactly that error, propagated unchanged
(it is wrapped in no structure carrying a batch index or a translated
count), no results are merged into any output, and the batches dispatched
are exactly those with index at most `k` (fail-fast, no internal retry). -/
theorem claim_C5 (E : Type) (tr : List String → Except E (List String))
    (max_chars batch_size : Nat) (text_list : List String) (k : Nat)
    (hk : k < (batches max_chars batch_size text_list).length) (e : E)
    (hok : ∀ j (hj : j < k),
      ∃ r, tr ((batches max_chars batch_size text_list).get ⟨j, Nat.lt_trans hj hk⟩) =
        Except.ok r)
    (herr : tr ((batches max_chars batch_size text_list).get ⟨k, hk⟩) = Except.error e) :
    batched_translate tr max_chars batch_size text_list = Except.error e ∧
      dispatched tr max_chars batch_size text_list =
        (batches max_chars batch_size text_list).take (k + 1) := by
  have hrun := runTrace_fail tr (batches max_chars batch_size text_list) k hk e hok herr
  have hb := btAux_eq_runTrace tr max_chars batch_size text_list [] 0 []
  have hbatches : batchesAux max_chars batch_size [] 0 text_list =
      batches max_chars batch_size text_list := rfl
  rw [hbatches, hrun] at hb
  constructor
  · simp only [batched_translate, hb, Except.map]
  · simp only [dispatched, hb]

/-- A remote call that fails exactly on the batch `["x"]` and succeeds,
returning the batch itself, on every other batch. -/
def trC5 : List String → Except Unit (List String) :=
  fun b => if b = ["x"] then Except.error () else Except.ok b

/-- Witness for C5 (amended) with failure at dispatch index 1. -/
theorem claim_C5_witness :
    1 < (batches 4 1 ["a", "x"]).length ∧
      (batched_translate trC5 4 1 ["a", "x"] = Except.error () ∧
        dispatched trC5 4 1 ["a", "x"] = (batches 4 1 ["a", "x"]).take 2) :=
  ⟨by decide, claim_C5 Unit trC5 4 1 ["a", "x"] 1 (by decide) ()
    (fun j hj => by
      cases j with
      | zero => exact ⟨["a"], rfl⟩
      | succ n => omega)
    rfl⟩

/-- Counterexample to C5 as stated: the propagated failure is the remote
call's own error value, unchanged.  Here two runs whose failures occur at
DIFFERENT batch indices (0 versus 1, with 0 versus 1 items translated
before the failure) produce the IDENTICAL failure value `Except.error ()`,
so the failure carries neither a batch index nor a count of previously
translated items — no `RemoteCallError` wrapper exists in the code. -/
theorem claim_C5_counterexample :
    batched_translate trC5 10 10 ["x"] = Except.error () ∧
      dispatched trC5 10 10 ["x"] = [["x"]] ∧
      batched_translate trC5 4 1 ["a", "x"] = Except.error () ∧
      dispatched trC5 4 1 ["a", "x"] = [["a"], ["x"]] :=
  ⟨rfl, rfl, rfl, rfl⟩

/-- C6: for `items = ["a","bb","ccc"]`, `max_chars = 3`,
`batch_size = 10`, exactly the two batches `["a","bb"]` then `["ccc"]`
are dispatched, in that order: a batch whose character sum exactly equals
`max_chars` is not flushed early. -/
theorem claim_C6 :
    batches 3 10 ["a", "bb", "ccc"] = [["a", "bb"], ["ccc"]] ∧
      dispatched (fun b => (Except.ok b : Except Unit (List String)))
        3 10 ["a", "bb", "ccc"] = [["a", "bb"], ["ccc"]] :=
  ⟨rfl, rfl⟩

/-- C7: on the empty input the function makes zero remote calls and
returns the empty list. -/
theorem claim_C7 (E : Type) (tr : List String → Except E (List String))
    (max_chars batch_size : Nat) :
    batched_translate tr max_chars batch_size [] = Except.ok [] ∧
      dispatched tr max_chars batch_size [] = [] :=
  ⟨rfl, rfl⟩

/-- C8: with a remote call that is a deterministic function of the
dispatched batch, two runs on the same input (modelled as two
extensionally equal remote-call functions) yield the identical output. -/
theorem claim_C8 (E : Type) (tr1 tr2 : List String → Except E (List String))
    (max_chars batch_size : Nat) (text_list : List String)
    (h : ∀ b, tr1 b = tr2 b) :
    batched_translate tr1 max_chars batch_size text_list =
      batched_translate tr2 max_chars batch_size text_list := by
  rw [funext h]

/-- Witness for C8 at two syntactically different but extensionally equal
remote calls. -/
theorem claim_C8_witness :
    batched_translate (fun b => (Except.ok b : Except Unit (List String))) 1 1 ["a"] =
      batched_translate (fun b => (Except.ok (b ++ []) : Except Unit (List String)))
        1 1 ["a"] :=
  claim_C8 Unit _ _ 1 1 ["a"] (fun b => by simp)

/-- C9: when the first item's length exceeds `max_chars`, the very first
remote call receives an empty batch, and the number of remote calls
exceeds the number of non-empty batches by exactly one. -/
theorem claim_C9 (t : String → String) (max_chars batch_size : Nat)
    (s : String) (rest : List String) (h : max_chars < s.length) :
    (dispatched (fun b => (Except.ok (b.map t) : Except Unit (List String)))
        max_chars batch_size (s :: rest)).head? = some [] ∧
      (dispatched (fun b => (Except.ok (b.map t) : Except Unit (List String)))
          max_chars batch_size (s :: rest)).length =
        ((dispatched (fun b => (Except.ok (b.map t) : Except Unit (List String)))
            max_chars batch_size (s :: rest)).filter
          (fun b => !b.isEmpty)).length + 1 := by
  rw [dispatched_ok (fun b => b.map t)]
  have hbl : batches max_chars batch_size (s :: rest) =
      [] :: batchesAux max_chars batch_size [s] s.length rest := by
    simp only [batches, batchesAux]
    rw [if_pos (Or.inl (by simpa using h))]
  rw [hbl]
  have hne := batchesAux_ne_nil max_chars batch_size rest [s] s.length (by simp)
  have hfilter : (batchesAux max_chars batch_size [s] s.length rest).filter
      (fun b => !b.isEmpty) = batchesAux max_chars batch_size [s] s.length rest := by
    apply List.filter_eq_self.mpr
    intro b hb
    have hbne := hne b hb
    cases b with
    | nil => exact absurd rfl hbne
    | cons x xs => rfl
  refine ⟨rfl, ?_⟩
  rw [List.filter_cons]
  simp [hfilter]

/-- Witness for C9 at `max_chars = 2` and first item `"aaaa"`. -/
theorem claim_C9_witness :
    2 < String.length "aaaa" ∧
      ((dispatched (fun b => (Except.ok (b.map (fun s => s)) : Except Unit (List String)))
          2 10 ["aaaa", "b"]).head? = some [] ∧
        (dispatched (fun b => (Except.ok (b.map (fun s => s)) : Except Unit (List String)))
            2 10 ["aaaa", "b"]).length =
          ((dispatched (fun b => (Except.ok (b.map (fun s => s)) : Except Unit (List String)))
              2 10 ["aaaa", "b"]).filter
            (fun b => !b.isEmpty)).length + 1) :=
  ⟨by decide, claim_C9 (fun s => s) 2 10 "aaaa" ["b"] (by decide)⟩

/-- C10: for `max_chars ≥ 1` and `batch_size ≥ 1`, the concatenation of
the dispatched batches, in dispatch order, is exactly the input list: no
item is dropped, duplicated, or reordered, independently of the
translator. -/
theorem claim_C10 (max_chars batch_size : Nat) (hmc : 1 ≤ max_chars)
    (hbs : 1 ≤ batch_size) (text_list : List String) :
    (batches max_chars batch_size text_list).flatten = text_list := by
  simpa [batches] using batchesAux_join max_chars batch_size text_list [] 0

/-- Witness for C10 at `max_chars = 3`, `batch_size = 10`. -/
theorem claim_C10_witness :
    (1 ≤ 3 ∧ 1 ≤ 10) ∧
      (batches 3 10 ["a", "bb", "ccc"]).flatten = ["a", "bb", "ccc"] :=
  ⟨⟨by decide, by decide⟩, claim_C10 3 10 (by decide) (by decide) ["a", "bb", "ccc"]⟩

end Airbnb
